import Mathlib

/-!
Verification of the live-coaching pipeline of the scam-detective-hotline
repository.  Definitions are shallow embeddings of the TypeScript sources:

* `src/lib/live-types.ts`   — risk levels, session statuses, advice values
* `src/lib/live-coach.ts`   — heuristic scorer, stabilizer, action queue
* `src/lib/twilio-webhook.ts` — webhook signature candidate validation
* `src/app/api/twilio/webhook/route.ts` — ingest status writes, model backoff
* `src/lib/live-store.ts`   — session status persistence
* `src/lib/rate-limit.ts`   — sliding-window limiter and per-key cooldown

Machine numbers (JS `number`) are modelled as `Int`/`Nat` where the code only
ever produces integers (risk scores, epoch milliseconds), and as `ℚ` for
confidences in [0, 1].  JS strings are Lean `String`s; `toLowerCase`,
`includes` and whitespace collapse are given explicit character-level
definitions below.
-/

namespace ScamHotline

/-! ### String helpers (JS `toLowerCase`, `includes`, `\s+` collapse) -/

/-- Whitespace characters collapsed by `value.replace(/\s+/g, ' ')`. -/
def isWsChar (c : Char) : Bool :=
  c = ' ' || c = '\t' || c = '\n' || c = '\r'

/-- JS `String.prototype.toLowerCase` restricted to ASCII case mapping. -/
def strToLower (s : String) : String :=
  ⟨s.data.map Char.toLower⟩

/-- `charsLeads pat cs` holds when `pat` occurs at the start of `cs`. -/
def charsLeads : List Char → List Char → Bool
  | [], _ => true
  | _ :: _, [] => false
  | p :: ps, c :: cs => p = c && charsLeads ps cs

/-- `charsHasSub pat cs` holds when `pat` occurs contiguously inside `cs`. -/
def charsHasSub (pat : List Char) : List Char → Bool
  | [] => charsLeads pat []
  | c :: rest => charsLeads pat (c :: rest) || charsHasSub pat rest

/-- JS `haystack.includes(pat)`: substring containment. -/
def hasSub (haystack pat : String) : Bool :=
  charsHasSub pat.data haystack.data

/-- JS `Array.prototype.join(sep)` on a list of strings. -/
def joinWith (sep : String) : List String → String
  | [] => ""
  | [x] => x
  | x :: y :: xs => x ++ sep ++ joinWith sep (y :: xs)

/-! ### `src/lib/live-types.ts` -/

inductive RiskLevel where
  | low
  | medium
  | high
deriving DecidableEq, Repr

inductive SessionStatus where
  | queued
  | ringing
  | inProgress
  | ended
  | failed
  | unknown
deriving DecidableEq, Repr

inductive TranscriptSpeaker where
  | caller
  | other
  | assistant
  | unknown
deriving DecidableEq, Repr

structure TranscriptChunk where
  id : String
  speaker : TranscriptSpeaker
  text : String
  timestamp : Nat
deriving DecidableEq, Repr

structure CoachingAdvice where
  riskScore : Int
  riskLevel : RiskLevel
  feedback : String
  whatToSay : String
  whatToDo : String
  nextSteps : List String
  confidence : ℚ
  updatedAt : Nat
deriving DecidableEq, Repr

/-- `getRiskLevel` from `src/lib/live-types.ts`. -/
def getRiskLevel (score : Int) : RiskLevel :=
  if score ≥ 70 then .high
  else if score ≥ 40 then .medium
  else .low

/-- `createDefaultAdvice` from `src/lib/live-types.ts` (`Date.now()` passed in). -/
def createDefaultAdvice (now : Nat) : CoachingAdvice where
  riskScore := 20
  riskLevel := .low
  feedback := "Listening for risk signals. Stay calm and ask verifying questions."
  whatToSay := "Can you verify your company, case number, and callback number?"
  whatToDo := "Do not share codes, account logins, or payment details."
  nextSteps := ["Ask for their full name and department.",
    "Say you will call back using an official number."]
  confidence := mkRat 3 10
  updatedAt := now

/-- `normalizeSessionStatus` from `src/lib/live-types.ts`.  A `none` input or
the empty string is falsy in JS (`if (!rawStatus) return 'unknown'`). -/
def normalizeSessionStatus (rawStatus : Option String) : SessionStatus :=
  match rawStatus with
  | none => .unknown
  | some raw =>
    if raw = "" then .unknown
    else
      let normalized := strToLower raw
      if hasSub normalized "queued" then .queued
      else if hasSub normalized "ring" then .ringing
      else if hasSub normalized "in-progress" || hasSub normalized "in progress"
          || normalized = "active" then .inProgress
      else if hasSub normalized "fail" || hasSub normalized "error"
          || hasSub normalized "busy" then .failed
      else if hasSub normalized "end" || hasSub normalized "complete"
          || hasSub normalized "cancel" then .ended
      else .unknown

/-- `isTerminalStatus` from `src/lib/live-types.ts`. -/
def isTerminalStatus (status : SessionStatus) : Bool :=
  status = .ended || status = .failed

example : normalizeSessionStatus (some "in-progress") = .inProgress := by decide
example : normalizeSessionStatus (some "CallRinging") = .ringing := by decide
example : normalizeSessionStatus (some "now active") = .unknown := by decide
example : normalizeSessionStatus (some "active") = .inProgress := by decide
example : normalizeSessionStatus (some "completed") = .ended := by decide
example : normalizeSessionStatus none = .unknown := by decide

/-! ### `src/lib/live-coach.ts` -/

/-- `clamp` from `src/lib/live-coach.ts` (integer scores). -/
def clampI (value lo hi : Int) : Int :=
  min hi (max lo value)

/-- `clamp` from `src/lib/live-coach.ts` applied to confidences. -/
def clampQ (value lo hi : ℚ) : ℚ :=
  min hi (max lo value)

/-- `HIGH_RISK_PATTERNS` from `src/lib/live-coach.ts`.  Each regex is an
alternation of literals with at most an optional `[- ]?` / `(code)?` piece,
so against an already lowercased text `pattern.test` is substring containment
of one of the expanded literal alternatives. -/
def HIGH_RISK_PATTERNS : List (List String) :=
  [["gift card"],
   ["wire transfer"],
   ["crypto", "bitcoin"],
   ["one-time pass", "one time pass", "onetime pass", "otp", "verification code"],
   ["social security", "ssn"],
   ["bank account", "routing number"],
   ["remote access", "screen share", "install this app", "install our app"],
   ["urgent", "immediately", "act now", "final warning"],
   ["arrest", "warrant", "lawsuit", "jail"]]

/-- `MEDIUM_RISK_PATTERNS` from `src/lib/live-coach.ts`. -/
def MEDIUM_RISK_PATTERNS : List (List String) :=
  [["keep this confidential", "don\x27t tell"],
   ["suspicious activity"],
   ["refund department", "tech support"],
   ["pay now", "security hold"],
   ["confirm your identity"]]

/-- `pattern.test(text)` for the alternation patterns above. -/
def matchesPattern (text : String) (alternatives : List String) : Bool :=
  alternatives.any (fun a => hasSub text a)

/-- JS `array.slice(-n)`: the last at most `n` elements. -/
def lastN (n : Nat) (l : List α) : List α :=
  l.drop (l.length - n)

/-- `getRecentTranscript` from `src/lib/live-coach.ts` (default `maxEntries = 40`). -/
def getRecentTranscript (transcript : List TranscriptChunk) (maxEntries : Nat := 40) :
    List TranscriptChunk :=
  if transcript.length ≤ maxEntries then transcript else lastN maxEntries transcript

/-- Word splitter worker: `cur` holds the reversed characters of the word in
progress. -/
def wordsAux : List Char → List Char → List (List Char)
  | cur, [] => if cur = [] then [] else [cur.reverse]
  | cur, c :: rest =>
    if isWsChar c then
      if cur = [] then wordsAux [] rest
      else cur.reverse :: wordsAux [] rest
    else wordsAux (c :: cur) rest

/-- Maximal whitespace-free words of a character list, used to realize the JS
`value.replace(/\s+/g, ' ').trim()` normalization. -/
def wordsOf (cs : List Char) : List (List Char) :=
  wordsAux [] cs

/-- Interleave single spaces between words. -/
def joinSpace : List (List Char) → List Char
  | [] => []
  | [w] => w
  | w :: w' :: ws => w ++ ' ' :: joinSpace (w' :: ws)

/-- `normalizeActionText` from `src/lib/live-coach.ts`:
`value.replace(/\s+/g, ' ').trim()`, i.e. the whitespace-collapsed word list
joined with single spaces. -/
def normalizeActionText (s : String) : String :=
  ⟨joinSpace (wordsOf s.data)⟩

/-- One step of the `add` closure of `buildActionQueue`: state is the pair of
the `seen` key set (a list) and the queue built so far.  JS `if (!value)` is
the empty-string test since every candidate is a string field. -/
def addAction (st : List String × List String) (value : String) :
    List String × List String :=
  if value = "" then st
  else
    let normalized := normalizeActionText value
    if normalized = "" then st
    else
      let key := strToLower normalized
      if st.1.contains key then st
      else (key :: st.1, st.2 ++ [normalized])

/-- The candidate actions consumed by `buildActionQueue`, in source order:
`next.whatToDo`, then (when present) `previous.whatToDo` and
`previous.nextSteps`, then `next.nextSteps`. -/
def actionCandidates (nextAdvice : CoachingAdvice)
    (previousAdvice : Option CoachingAdvice) : List String :=
  [nextAdvice.whatToDo] ++
    (match previousAdvice with
     | some prev => [prev.whatToDo] ++ prev.nextSteps
     | none => []) ++
    nextAdvice.nextSteps

/-- `buildActionQueue` from `src/lib/live-coach.ts`. -/
def buildActionQueue (nextAdvice : CoachingAdvice)
    (previousAdvice : Option CoachingAdvice) : List String :=
  let fallback := (createDefaultAdvice 0).whatToDo
  let st := (actionCandidates nextAdvice previousAdvice).foldl addAction ([], [])
  let queue := if st.2 = [] then [fallback] else st.2
  queue.take 3

/-- The `baseMaxStep` binding of `smoothRiskScore`: `conf >= 0.75 ? 18 :
conf >= 0.55 ? 14 : 10` (0.75 = 3/4, 0.55 = 11/20). -/
def baseMaxStep (conf : ℚ) : Int :=
  if conf ≥ mkRat 3 4 then 18 else if conf ≥ mkRat 11 20 then 14 else 10

/-- The `maxStep` binding of `smoothRiskScore`: raise the cap to at least 22
when the step crosses into the high-risk band (`p < 70 ≤ target`). -/
def maxStepFor (conf : ℚ) (previousScore targetScore : Int) : Int :=
  if previousScore < 70 ∧ 70 ≤ targetScore then max (baseMaxStep conf) 22
  else baseMaxStep conf

/-- `smoothRiskScore` from `src/lib/live-coach.ts`.  `Math.round` is omitted:
every score reaching it in the repository is an integer (the heuristic scorer
adds integers, `sanitizeAdvice` and the store both round), so scores are
modelled as `Int` throughout. -/
def smoothRiskScore (nextScore : Int) (confidence : ℚ)
    (previousAdvice : Option CoachingAdvice) : Int :=
  let targetScore := clampI nextScore 0 100
  match previousAdvice with
  | none => targetScore
  | some previous =>
    let previousScore := clampI previous.riskScore 0 100
    let delta := targetScore - previousScore
    if delta = 0 then previousScore
    else
      let conf := clampQ confidence 0 1
      let maxStep := maxStepFor conf previousScore targetScore
      if |delta| ≤ maxStep then targetScore
      else clampI (previousScore + delta.sign * maxStep) 0 100

/-- `buildHeuristicAdvice` from `src/lib/live-coach.ts` (`Date.now()` passed
in as `now`). -/
def buildHeuristicAdvice (now : Nat) (transcript : List TranscriptChunk)
    (previousAdvice : Option CoachingAdvice) : CoachingAdvice :=
  let base := previousAdvice.getD (createDefaultAdvice now)
  let combined := joinWith " " ((lastN 10 transcript).map (fun e => strToLower e.text))
  let score0 : Int := 20
  let score1 := HIGH_RISK_PATTERNS.foldl
    (fun s pattern => if matchesPattern combined pattern then s + 15 else s) score0
  let score2 := MEDIUM_RISK_PATTERNS.foldl
    (fun s pattern => if matchesPattern combined pattern then s + 8 else s) score1
  let score := clampI score2 5 95
  let riskLevel := getRiskLevel score
  if riskLevel = .high then
    { riskScore := score
      riskLevel := riskLevel
      feedback := "High scam pressure detected. Pause and verify through official channels only."
      whatToSay := "I am ending this call and contacting the organization using the number on its official website."
      whatToDo := "Do not send money or share codes. End the call now."
      nextSteps := ["Hang up and call the official number yourself.",
        "Change sensitive passwords if anything was shared.",
        "Tell a trusted contact what happened."]
      confidence := mkRat 11 20
      updatedAt := now }
  else if riskLevel = .medium then
    { riskScore := score
      riskLevel := riskLevel
      feedback := "Some warning signs detected. Keep control of the call and verify identity."
      whatToSay := "Please give me your full name, case number, and a public callback number."
      whatToDo := "Do not confirm personal data until you verify independently."
      nextSteps := ["Write down their claim and callback number.",
        "Hang up and verify using a known official contact."]
      confidence := mkRat 1 2
      updatedAt := now }
  else
    { riskScore := score
      riskLevel := riskLevel
      feedback := base.feedback
      whatToSay := base.whatToSay
      whatToDo := base.whatToDo
      nextSteps := base.nextSteps
      confidence := mkRat 9 20
      updatedAt := now }

/-- `stabilizeAdvice` from `src/lib/live-coach.ts`.  `actionQueue[0]` /
`actionQueue.slice(1, 3)` are head and the next two entries; the queue is
never empty (fallback), which `buildActionQueue_ne_nil` below records. -/
def stabilizeAdvice (now : Nat) (nextAdvice : CoachingAdvice)
    (previousAdvice : Option CoachingAdvice) : CoachingAdvice :=
  let confidence := clampQ nextAdvice.confidence 0 1
  let stabilizedRiskScore := smoothRiskScore nextAdvice.riskScore confidence previousAdvice
  let actionQueue := buildActionQueue nextAdvice previousAdvice
  { nextAdvice with
    riskScore := stabilizedRiskScore
    riskLevel := getRiskLevel stabilizedRiskScore
    whatToDo := actionQueue.getD 0 ""
    nextSteps := (actionQueue.drop 1).take 2
    confidence := confidence
    updatedAt := now }

/-- `generateHeuristicAdvice` from `src/lib/live-coach.ts`. -/
def generateHeuristicAdvice (now : Nat) (transcript : List TranscriptChunk)
    (previousAdvice : Option CoachingAdvice) : CoachingAdvice :=
  let recentTranscript := getRecentTranscript transcript
  if recentTranscript = [] then previousAdvice.getD (createDefaultAdvice now)
  else buildHeuristicAdvice now recentTranscript previousAdvice

/-! ### `src/lib/twilio-webhook.ts` — signature validation

The two hash primitives (`createHmac('sha1', …)` and `createHash('sha256')`)
are abstract parameters of the embedding: the claims under scrutiny concern
the candidate-validation logic around them, not the hash internals.  A URL is
modelled pre-parsed: its full text (what the HMAC signs) together with the
result of `new URL(url).searchParams.get('bodySHA256')?.trim() || null`. -/

structure UrlCandidate where
  full : String
  bodySha256Param : Option String
deriving DecidableEq, Repr

/-- Insertion into a sorted list of strings, for JS `Array.prototype.sort()`. -/
def insertSorted (x : String) : List String → List String
  | [] => [x]
  | y :: ys => if x ≤ y then x :: y :: ys else y :: insertSorted x ys

/-- JS `Object.keys(params).sort()`. -/
def sortStrings : List String → List String
  | [] => []
  | x :: xs => insertSorted x (sortStrings xs)

/-- `computeTwilioSignature`: HMAC-SHA1 over `url || concat(sorted k, v)`,
base64; `hmacSha1 authToken payload` abstracts `createHmac('sha1', …)`. -/
def computeTwilioSignature (hmacSha1 : String → String → String)
    (authToken url : String) (params : List (String × String)) : String :=
  let sortedKeys := sortStrings (params.map Prod.fst)
  let payload := sortedKeys.foldl
    (fun acc key => acc ++ key ++ (((params.lookup key).getD ""))) url
  hmacSha1 authToken payload

/-- `safeEqual`: constant-time comparison, logically string equality. -/
def safeEqual (a b : String) : Bool :=
  a = b

/-- `isValidJsonSignatureCandidate` from `src/lib/twilio-webhook.ts`:
when the URL carries a `bodySHA256` query parameter it must equal the hex
SHA-256 of the raw body (case-insensitively); the HMAC then signs the URL
alone (empty parameter map). -/
def isValidJsonSignatureCandidate (hmacSha1 : String → String → String)
    (sha256Hex : String → String)
    (authToken signature : String) (url : UrlCandidate) (rawBody : String) : Bool :=
  let shaOk :=
    match url.bodySha256Param with
    | some bodySha =>
      safeEqual (strToLower (sha256Hex rawBody)) (strToLower bodySha)
    | none => true
  if !shaOk then false
  else safeEqual (computeTwilioSignature hmacSha1 authToken url.full []) signature

/-- `isValidTwilioSignature` from `src/lib/twilio-webhook.ts`.  For a JSON
body with the raw body available the JSON candidate check is used; otherwise
the form-encoded HMAC over URL plus sorted parameters. -/
def isValidTwilioSignature (hmacSha1 : String → String → String)
    (sha256Hex : String → String)
    (authToken signature : String) (urlCandidates : List UrlCandidate)
    (bodyParams : List (String × String)) (rawBody : Option String)
    (isJsonBody : Bool) : Bool :=
  match isJsonBody, rawBody with
  | true, some raw =>
    urlCandidates.any (fun candidate =>
      isValidJsonSignatureCandidate hmacSha1 sha256Hex authToken signature candidate raw)
  | _, _ =>
    urlCandidates.any (fun candidate =>
      safeEqual (computeTwilioSignature hmacSha1 authToken candidate.full bodyParams)
        signature)

/-! ### `src/app/api/twilio/webhook/route.ts` — ingest status writes

`upsertLiveCallSession` (src/lib/live-store.ts) writes
`normalizeSessionStatus(status)` whenever the event carries a status, and the
handler then calls `setLiveCallStatus` with the same normalized status (plus a
user-safe `last_error` when it is `failed`).  Neither consults the stored
status first.  Only the `status` / `last_error` columns matter to the claims,
so the session row is modelled by those fields. -/

structure LiveCallRow where
  status : SessionStatus
  lastError : Option String
deriving DecidableEq, Repr

/-- Status effect of `upsertLiveCallSession` on an existing row
(`payload.status = normalizeSessionStatus(params.status)` only when
`params.status` is truthy). -/
def upsertSessionStatus (row : LiveCallRow) (status : Option String) : LiveCallRow :=
  match status with
  | none => row
  | some s =>
    if s = "" then row
    else { row with status := normalizeSessionStatus (some s) }

/-- `setLiveCallStatus` from `src/lib/live-store.ts`: unconditional update of
`status` (already normalized by the caller) and, when given, `last_error`. -/
def setLiveCallStatus (row : LiveCallRow) (status : SessionStatus)
    (lastError : Option (Option String)) : LiveCallRow :=
  { row with
    status := status
    lastError := lastError.getD row.lastError }

/-- The status-bearing part of one webhook ingest (route lines 339–349):
upsert with the event status, then, when the event carries a status,
`setLiveCallStatus` with its normalization and a `failed`-only error note. -/
def ingestStatusStep (row : LiveCallRow) (eventStatus : Option String) : LiveCallRow :=
  let row1 := upsertSessionStatus row eventStatus
  match eventStatus with
  | none => row1
  | some s =>
    if s = "" then row1
    else
      let status := normalizeSessionStatus (some s)
      let statusError : Option String :=
        if status = .failed then some ("Call status changed to " ++ s ++ ".") else none
      setLiveCallStatus row1 status (some statusError)

/-! ### `src/app/api/twilio/webhook/route.ts` — per-call worker backoff -/

structure AdviceRunState where
  running : Bool
  pending : Bool
  forceModel : Bool
  lastModelRunAt : Nat
  modelCooldownUntil : Nat
  rateLimitStreak : Nat
  lastRateLimitAt : Nat
  terminal : Bool
deriving DecidableEq, Repr

/-- The error classification seen by `getRateLimitBackoffMs`: a
`ModelAdviceError` with its `statusCode` and `retryAfterMs`, or anything
else. -/
inductive AdviceFailure where
  | modelErr (statusCode : Option Int) (retryAfterMs : Option Nat)
  | otherErr
deriving DecidableEq, Repr

/-- `getRateLimitBackoffMs` from the webhook route.  The TS mutates `state`;
here the updated state is returned alongside the backoff. -/
def getRateLimitBackoffMs (now : Nat) (error : AdviceFailure)
    (state : AdviceRunState) : Nat × AdviceRunState :=
  match error with
  | .otherErr => (0, { state with rateLimitStreak := 0, lastRateLimitAt := 0 })
  | .modelErr statusCode retryAfterMs =>
    if statusCode ≠ some 429 then
      (0, { state with rateLimitStreak := 0, lastRateLimitAt := 0 })
    else
      let streak0 :=
        if now - state.lastRateLimitAt > 90000 then 0 else state.rateLimitStreak
      let streak := streak0 + 1
      let exponentialBackoffMs := min 60000 (6000 * 2 ^ (streak - 1))
      let retryMs := retryAfterMs.getD 0
      (max exponentialBackoffMs retryMs,
        { state with rateLimitStreak := streak, lastRateLimitAt := now })

/-- The `catch` block of `runAdviceCycle` (route lines 245–258), state part:
bump `lastModelRunAt`, compute the backoff, and extend the cooldown only when
it is positive. -/
def handleModelFailure (now : Nat) (error : AdviceFailure)
    (state : AdviceRunState) : AdviceRunState :=
  let st1 := { state with lastModelRunAt := now }
  let res := getRateLimitBackoffMs now error st1
  if res.1 > 0 then { res.2 with modelCooldownUntil := now + res.1 } else res.2

/-- The model gate of `runAdviceCycle` (route lines 209–212). -/
def shouldRunModel (hasGroqModel : Bool) (minIntervalMs now : Nat)
    (state : AdviceRunState) (forceModel callEnded : Bool) : Bool :=
  hasGroqModel && decide (now ≥ state.modelCooldownUntil) &&
    (forceModel || callEnded || decide (now - state.lastModelRunAt ≥ minIntervalMs))

/-! ### `src/lib/rate-limit.ts` -/

structure WindowBucket where
  count : Nat
  resetAt : Nat
deriving DecidableEq, Repr

structure RateLimitState where
  buckets : List (String × WindowBucket)
  cooldowns : List (String × Nat)
  lastPruneAt : Nat
deriving DecidableEq, Repr

/-- JS `Map.prototype.set`: replace in place or append. -/
def setEntry : List (String × β) → String → β → List (String × β)
  | [], k, v => [(k, v)]
  | (k', v') :: rest, k, v =>
    if k' = k then (k, v) :: rest else (k', v') :: setEntry rest k v

/-- `pruneExpired` from `src/lib/rate-limit.ts`: every ≥ 60 s, drop buckets
and cooldowns whose reset/ready time is not in the future. -/
def pruneExpired (now : Nat) (state : RateLimitState) : RateLimitState :=
  if now - state.lastPruneAt < 60000 then state
  else
    { buckets := state.buckets.filter (fun e => decide (now < e.2.resetAt))
      cooldowns := state.cooldowns.filter (fun e => decide (now < e.2))
      lastPruneAt := now }

/-- `takeRateLimit` from `src/lib/rate-limit.ts`. -/
def takeRateLimit (now : Nat) (key : String) (limit windowMs : Nat)
    (state0 : RateLimitState) : Bool × RateLimitState :=
  let state := pruneExpired now state0
  match state.buckets.lookup key with
  | none =>
    (true, { state with buckets := setEntry state.buckets key ⟨1, now + windowMs⟩ })
  | some bucket =>
    if bucket.resetAt ≤ now then
      (true, { state with buckets := setEntry state.buckets key ⟨1, now + windowMs⟩ })
    else if bucket.count ≥ limit then (false, state)
    else
      (true,
        { state with
          buckets := setEntry state.buckets key ⟨bucket.count + 1, bucket.resetAt⟩ })

/-- `takeCooldown` from `src/lib/rate-limit.ts`: `Math.ceil((readyAt - now) /
1000)` seconds remaining while the cooldown is active, else consume the slot
and return 0. -/
def takeCooldown (now : Nat) (key : String) (cooldownMs : Nat)
    (state0 : RateLimitState) : Nat × RateLimitState :=
  let state := pruneExpired now state0
  let readyAt := (state.cooldowns.lookup key).getD 0
  if readyAt > now then
    ((readyAt - now + 999) / 1000, state)
  else
    (0, { state with cooldowns := setEntry state.cooldowns key (now + cooldownMs) })

/-! ### Spec-side definitions

These follow the specification text (not the source) and are compared with
the source-derived definitions in refinement theorems below. -/

/-- Modelled from the spec wording of §4.10 with the one correction the code
forces: an input *equal* to `active` (after lowercasing) maps to
`in-progress`; every other clause is containment, in the spec order. -/
def specNormalizeStatus (rawStatus : Option String) : SessionStatus :=
  match rawStatus with
  | none => .unknown
  | some raw =>
    let s := strToLower raw
    if hasSub s "queued" then .queued
    else if hasSub s "ring" then .ringing
    else if hasSub s "in-progress" || hasSub s "in progress" || s = "active" then
      .inProgress
    else if hasSub s "fail" || hasSub s "error" || hasSub s "busy" then .failed
    else if hasSub s "end" || hasSub s "complete" || hasSub s "cancel" then .ended
    else .unknown

/-- First-occurrence deduplication keyed by `k`, the spec-side description of
the action-queue union ("drop … case-insensitive duplicates"). -/
def dedupBy (k : String → String) : List String → List String
  | [] => []
  | x :: xs => x :: dedupBy k (xs.filter (fun y => !(k y = k x)))
termination_by l => l.length
decreasing_by
  simp only [List.length_cons]
  exact Nat.lt_succ_of_le (List.length_filter_le _ _)

/-- Spec-side action queue (§4.6): canonicalize every candidate by whitespace
collapse, drop empties, remove case-insensitive duplicates keeping first
occurrences, fall back to the fixed default action when empty, keep the first
three. -/
def specActionQueue (nextAdvice : CoachingAdvice)
    (previousAdvice : Option CoachingAdvice) : List String :=
  let canonical :=
    ((actionCandidates nextAdvice previousAdvice).map normalizeActionText).filter
      (fun t => !(t = ""))
  let unioned := dedupBy strToLower canonical
  let queue := if unioned = [] then [(createDefaultAdvice 0).whatToDo] else unioned
  queue.take 3

/-! ### Helper lemmas -/

theorem clampI_of_bounds {v lo hi : Int} (h1 : lo ≤ v) (h2 : v ≤ hi) :
    clampI v lo hi = v := by
  simp only [clampI, max_eq_right h1, min_eq_right h2]

theorem getRiskLevel_cases (s : Int) :
    (getRiskLevel s = .high ↔ 70 ≤ s)
      ∧ (getRiskLevel s = .medium ↔ 40 ≤ s ∧ s ≤ 69)
      ∧ (getRiskLevel s = .low ↔ s < 40) := by
  unfold getRiskLevel
  split_ifs with h1 h2 <;>
    refine ⟨?_, ?_, ?_⟩ <;> simp_all <;> omega

/-- A concrete advice value used in counterexamples and witnesses. -/
def mkAdvice (score : Int) (conf : ℚ) : CoachingAdvice where
  riskScore := score
  riskLevel := getRiskLevel score
  feedback := "feedback"
  whatToSay := "say this"
  whatToDo := "do this"
  nextSteps := []
  confidence := conf
  updatedAt := 0

/-! ### Claim theorems -/

/-- C8: every advice produced by `stabilizeAdvice` has `riskLevel` equal to
the derivation of its `riskScore`, where the derivation maps a score to
`high` iff it is ≥ 70, to `medium` iff it lies in [40, 69], and to `low` iff
it is < 40. -/
theorem c8_risk_level_derived (now : Nat) (nextAdvice : CoachingAdvice)
    (previousAdvice : Option CoachingAdvice) :
    ((stabilizeAdvice now nextAdvice previousAdvice).riskLevel
        = getRiskLevel (stabilizeAdvice now nextAdvice previousAdvice).riskScore)
      ∧ (∀ s : Int,
        (getRiskLevel s = .high ↔ 70 ≤ s)
          ∧ (getRiskLevel s = .medium ↔ 40 ≤ s ∧ s ≤ 69)
          ∧ (getRiskLevel s = .low ↔ s < 40)) :=
  ⟨rfl, getRiskLevel_cases⟩

/-- C5 counterexample: the string `"now active"` contains `"active"`, so by
the claim it should normalize to `in-progress`; the code compares the whole
lowercased string with `"active"` for equality and yields `unknown`. -/
theorem c5_status_normalization_counterexample :
    hasSub (strToLower "now active") "active" = true
      ∧ normalizeSessionStatus (some "now active") = .unknown
      ∧ SessionStatus.unknown ≠ .inProgress := by
  decide

/-- C5 (amended): `normalizeSessionStatus` follows the containment cascade of
the claim except that the `active` clause is whole-string equality (after
lowercasing), not containment; `none` and the empty string give `unknown`. -/
theorem c5_status_normalization_amended (rawStatus : Option String) :
    normalizeSessionStatus rawStatus = specNormalizeStatus rawStatus := by
  match rawStatus with
  | none => rfl
  | some raw =>
    by_cases h : raw = ""
    · subst h; decide
    · simp only [normalizeSessionStatus, specNormalizeStatus, if_neg h]

/-- C5 amended witness. -/
theorem c5_status_normalization_witness :
    normalizeSessionStatus (some "CallRinging") = specNormalizeStatus (some "CallRinging") :=
  c5_status_normalization_amended (some "CallRinging")

/-- C3 counterexample: a session whose status is the terminal `ended` and a
later status-bearing webhook event `in-progress`; the ingest step overwrites
the terminal status, contradicting terminal finality. -/
theorem c3_terminal_finality_counterexample :
    isTerminalStatus (LiveCallRow.mk .ended none).status = true
      ∧ (ingestStatusStep (LiveCallRow.mk .ended none) (some "in-progress")).status
          = .inProgress
      ∧ SessionStatus.inProgress ≠ .ended := by
  decide

/-- C3 (amended): the ingest status writes are unconditional.  Even when the
stored status is terminal (`ended` or `failed`), a later status-bearing event
sets the session status to the normalization of its status string — the
ingest path never consults the stored status before writing. -/
theorem c3_terminal_finality_amended (row : LiveCallRow) (s : String)
    (_hterm : isTerminalStatus row.status = true) (hs : s ≠ "") :
    (ingestStatusStep row (some s)).status = normalizeSessionStatus (some s) := by
  simp only [ingestStatusStep, upsertSessionStatus, setLiveCallStatus, if_neg hs]

/-- C3 amended witness. -/
theorem c3_terminal_finality_witness :
    isTerminalStatus (LiveCallRow.mk .ended none).status = true
      ∧ ("queued" : String) ≠ ""
      ∧ (ingestStatusStep (LiveCallRow.mk .ended none) (some "queued")).status
          = normalizeSessionStatus (some "queued") :=
  ⟨by decide, by decide,
    c3_terminal_finality_amended (LiveCallRow.mk .ended none) "queued"
      (by decide) (by decide)⟩

theorem clampQ_of_bounds {v lo hi : ℚ} (h1 : lo ≤ v) (h2 : v ≤ hi) :
    clampQ v lo hi = v := by
  simp only [clampQ, max_eq_right h1, min_eq_right h2]

theorem ten_le_baseMaxStep (conf : ℚ) : 10 ≤ baseMaxStep conf := by
  unfold baseMaxStep
  split_ifs <;> norm_num

theorem ten_le_maxStepFor (conf : ℚ) (p t : Int) : 10 ≤ maxStepFor conf p t := by
  unfold maxStepFor
  split_ifs
  · exact le_trans (ten_le_baseMaxStep conf) (le_max_left _ _)
  · exact ten_le_baseMaxStep conf

/-- C1 counterexample: previous score 20, new score 23 at confidence 0.5:
`|23 − 20| = 3 ≤ 3`, yet the stabilized score is 23, not the previous 20.
The code keeps the previous score only when the delta is exactly 0. -/
theorem c1_dead_zone_counterexample :
    |(23 : Int) - 20| ≤ 3
      ∧ (stabilizeAdvice 0 (mkAdvice 23 (mkRat 1 2))
          (some (mkAdvice 20 (mkRat 1 2)))).riskScore ≠ 20 := by
  decide

/-- C1 (amended): when `|n − p| ≤ 3` (scores in [0, 100]) the stabilized
score equals `n`, the NEW score — every step cap is at least 10, so small
deltas are always taken in full; the previous score is kept only when
`n = p`. -/
theorem c1_dead_zone_amended (now : Nat) (next prev : CoachingAdvice)
    (hp : 0 ≤ prev.riskScore ∧ prev.riskScore ≤ 100)
    (hn : 0 ≤ next.riskScore ∧ next.riskScore ≤ 100)
    (hd : |next.riskScore - prev.riskScore| ≤ 3) :
    (stabilizeAdvice now next (some prev)).riskScore = next.riskScore := by
  have ht := clampI_of_bounds hn.1 hn.2
  have hpp := clampI_of_bounds hp.1 hp.2
  have hms := ten_le_maxStepFor (clampQ (clampQ next.confidence 0 1) 0 1)
    prev.riskScore next.riskScore
  have hs : (stabilizeAdvice now next (some prev)).riskScore
      = smoothRiskScore next.riskScore (clampQ next.confidence 0 1) (some prev) := rfl
  rw [hs]
  simp only [smoothRiskScore, ht, hpp]
  split_ifs with h1 h2
  · omega
  · rfl
  · exact absurd (hd.trans (by omega)) h2

/-- C1 amended witness. -/
theorem c1_dead_zone_witness :
    |(22 : Int) - 20| ≤ 3
      ∧ (stabilizeAdvice 0 (mkAdvice 22 (mkRat 1 2))
          (some (mkAdvice 20 (mkRat 1 2)))).riskScore = 22 :=
  ⟨by decide,
    c1_dead_zone_amended 0 (mkAdvice 22 (mkRat 1 2)) (mkAdvice 20 (mkRat 1 2))
      ⟨by decide, by decide⟩ ⟨by decide, by decide⟩ (by decide)⟩

/-- C2: the stabilized score differs from the previous score `p` by at most
`cap`, where `cap` is 18/14/10 by confidence thresholds 0.75/0.55 and raised
to at least 22 when `p < 70 ≤ n`; and when `|n − p|` exceeds `cap` the
result moves exactly `cap` points in the sign of `n − p`, clamped to
[0, 100]. -/
theorem c2_step_cap (now : Nat) (next prev : CoachingAdvice)
    (hp : 0 ≤ prev.riskScore ∧ prev.riskScore ≤ 100)
    (hn : 0 ≤ next.riskScore ∧ next.riskScore ≤ 100)
    (hc : 0 ≤ next.confidence ∧ next.confidence ≤ 1) :
    let p := prev.riskScore
    let n := next.riskScore
    let base : Int :=
      if next.confidence ≥ mkRat 3 4 then 18
      else if next.confidence ≥ mkRat 11 20 then 14 else 10
    let cap := if p < 70 ∧ 70 ≤ n then max base 22 else base
    let s := (stabilizeAdvice now next (some prev)).riskScore
    |s - p| ≤ cap ∧ (cap < |n - p| → s = clampI (p + (n - p).sign * cap) 0 100) := by
  intro p n base cap s
  have hcq : clampQ next.confidence 0 1 = next.confidence :=
    clampQ_of_bounds hc.1 hc.2
  have ht : clampI n 0 100 = n := clampI_of_bounds hn.1 hn.2
  have hpp : clampI p 0 100 = p := clampI_of_bounds hp.1 hp.2
  have hcap_eq : cap = maxStepFor next.confidence p n := rfl
  have hcap10 : 10 ≤ cap := hcap_eq ▸ ten_le_maxStepFor next.confidence p n
  have hs : s = smoothRiskScore n (clampQ next.confidence 0 1) (some prev) := rfl
  simp only [smoothRiskScore, ht, hpp] at hs
  simp only [hcq] at hs
  rw [← hcap_eq] at hs
  by_cases h0 : n - p = 0
  · rw [if_pos h0] at hs
    constructor
    · rw [hs]; simp only [sub_self, abs_zero]; omega
    · intro hlt
      rw [h0, abs_zero] at hlt
      omega
  · rw [if_neg h0] at hs
    by_cases h1 : |n - p| ≤ cap
    · rw [if_pos h1] at hs
      refine ⟨by rw [hs]; exact h1, fun hlt => absurd h1 (by omega)⟩
    · rw [if_neg h1] at hs
      refine ⟨?_, fun _ => hs⟩
      rcases lt_or_gt_of_ne h0 with hneg | hpos
      · have hsign : (n - p).sign = -1 := Int.sign_eq_neg_one_of_neg hneg
        rw [hsign] at hs
        rw [hs]
        simp only [clampI, abs_le]
        omega
      · have hsign : (n - p).sign = 1 := Int.sign_eq_one_of_pos hpos
        rw [hsign] at hs
        rw [hs]
        simp only [clampI, abs_le]
        omega

/-- C2 witness: previous 25, new 90 at confidence 0.4 crossing the high
band: cap is `max 10 22 = 22` and the stored score is 25 + 22 = 47. -/
theorem c2_step_cap_witness :
    (22 : Int) < |(90 : Int) - 25|
      ∧ (stabilizeAdvice 0 (mkAdvice 90 (mkRat 2 5))
          (some (mkAdvice 25 (mkRat 2 5)))).riskScore = 47 := by
  refine ⟨by decide, ?_⟩
  have h := (c2_step_cap 0 (mkAdvice 90 (mkRat 2 5)) (mkAdvice 25 (mkRat 2 5))
    ⟨by decide, by decide⟩ ⟨by decide, by decide⟩ ⟨by decide, by decide⟩).2 (by decide)
  exact h.trans (by decide)

theorem json_candidate_accepts_iff (hmacSha1 : String → String → String)
    (sha256Hex : String → String) (authToken signature : String)
    (url : UrlCandidate) (rawBody : String) :
    isValidJsonSignatureCandidate hmacSha1 sha256Hex authToken signature url rawBody
        = true
      ↔ ((∀ b, url.bodySha256Param = some b →
            strToLower (sha256Hex rawBody) = strToLower b)
        ∧ computeTwilioSignature hmacSha1 authToken url.full [] = signature) := by
  cases hbs : url.bodySha256Param with
  | none => simp [isValidJsonSignatureCandidate, hbs, safeEqual]
  | some b =>
    by_cases hsha : strToLower (sha256Hex rawBody) = strToLower b <;>
      simp [isValidJsonSignatureCandidate, hbs, safeEqual, hsha]

/-- C4 counterexample: a JSON-bodied request whose URL carries no
`bodySHA256` query parameter is accepted whenever the HMAC over the URL
alone matches — the claim says it must be rejected.  The two hash functions
are abstract parameters; any instantiation exhibits the acceptance. -/
theorem c4_json_signature_counterexample :
    (UrlCandidate.mk "https://example.com/api/twilio/webhook?slug=case"
        none).bodySha256Param = none
      ∧ isValidTwilioSignature (fun _ _ => "SIG") (fun _ => "HEX") "token" "SIG"
          [UrlCandidate.mk "https://example.com/api/twilio/webhook?slug=case" none]
          [] (some "abc") true = true := by
  decide

/-- C4 (amended): for a JSON body, the verifier accepts iff some URL
candidate satisfies both: IF the candidate carries a `bodySHA256` query
parameter THEN its value equals the hex SHA-256 of the raw body
(case-insensitively), AND the HMAC-SHA1 over the URL alone matches the
signature.  A candidate without `bodySHA256` skips the body check instead of
being rejected. -/
theorem c4_json_signature_amended (hmacSha1 : String → String → String)
    (sha256Hex : String → String) (authToken signature : String)
    (urlCandidates : List UrlCandidate) (bodyParams : List (String × String))
    (rawBody : String) :
    isValidTwilioSignature hmacSha1 sha256Hex authToken signature urlCandidates
        bodyParams (some rawBody) true = true
      ↔ ∃ url ∈ urlCandidates,
          (∀ b, url.bodySha256Param = some b →
            strToLower (sha256Hex rawBody) = strToLower b)
          ∧ computeTwilioSignature hmacSha1 authToken url.full [] = signature := by
  simp only [isValidTwilioSignature, List.any_eq_true]
  constructor
  · rintro ⟨url, hmem, hok⟩
    exact ⟨url, hmem, (json_candidate_accepts_iff hmacSha1 sha256Hex authToken
      signature url rawBody).mp hok⟩
  · rintro ⟨url, hmem, hok⟩
    exact ⟨url, hmem, (json_candidate_accepts_iff hmacSha1 sha256Hex authToken
      signature url rawBody).mpr hok⟩

/-- C7: after a 429 model failure with `retry_after_ms = R` when the
effective streak (after the 90 s reset rule) was 0, the cooldown becomes
`now + max(R, 6000)` and the model gate refuses any earlier instant; in
general the extension is `max(min(60000, 6000·2^(streak−1)), R)` with the
post-increment streak; a non-429 failure leaves the cooldown untouched while
still bumping `lastModelRunAt`. -/
theorem c7_rate_limit_backoff (state : AdviceRunState) (now R : Nat)
    (h0 : state.rateLimitStreak = 0 ∨ now - state.lastRateLimitAt > 90000) :
    ((handleModelFailure now (.modelErr (some 429) (some R)) state).modelCooldownUntil
        = now + max R 6000)
      ∧ (∀ hasGroqModel minIntervalMs t forceModel callEnded,
          shouldRunModel hasGroqModel minIntervalMs t
              (handleModelFailure now (.modelErr (some 429) (some R)) state)
              forceModel callEnded = true
            → now + max R 6000 ≤ t)
      ∧ (∀ (st : AdviceRunState) (retryAfterMs : Option Nat),
          (getRateLimitBackoffMs now (.modelErr (some 429) retryAfterMs) st).1
            = (let streak := (if now - st.lastRateLimitAt > 90000 then 0
                else st.rateLimitStreak) + 1
              max (min 60000 (6000 * 2 ^ (streak - 1))) (retryAfterMs.getD 0)))
      ∧ (∀ (st : AdviceRunState) (err : AdviceFailure),
          (err = .otherErr ∨ ∃ sc ra, err = .modelErr sc ra ∧ sc ≠ some 429)
            → (handleModelFailure now err st).modelCooldownUntil
                = st.modelCooldownUntil
              ∧ (handleModelFailure now err st).lastModelRunAt = now) := by
  have hback : getRateLimitBackoffMs now (.modelErr (some 429) (some R))
      { state with lastModelRunAt := now }
      = (max 6000 R,
        { state with
          lastModelRunAt := now
          rateLimitStreak := 1
          lastRateLimitAt := now }) := by
    have hstreak0 : (if now - state.lastRateLimitAt > 90000 then 0
        else state.rateLimitStreak) = 0 := by
      rcases h0 with h | h
      · simp [h]
      · rw [if_pos h]
    simp only [getRateLimitBackoffMs]
    rw [if_neg (by simp)]
    simp only [hstreak0]
    norm_num
  have hcool : (handleModelFailure now (.modelErr (some 429) (some R))
      state).modelCooldownUntil = now + max 6000 R := by
    simp only [handleModelFailure, hback]
    rw [if_pos (by omega : max 6000 R > 0)]
  refine ⟨by rw [hcool]; omega, ?_, ?_, ?_⟩
  · intro hasGroqModel minIntervalMs t forceModel callEnded hrun
    simp only [shouldRunModel, Bool.and_eq_true, decide_eq_true_eq] at hrun
    obtain ⟨⟨-, hge⟩, -⟩ := hrun
    rw [hcool] at hge
    omega
  · intro st retryAfterMs
    simp only [getRateLimitBackoffMs]
    rw [if_neg (by simp)]
  · intro st err herr
    rcases herr with h | ⟨sc, ra, rfl, hsc⟩
    · subst h
      simp only [handleModelFailure, getRateLimitBackoffMs]
      rw [if_neg (by omega : ¬ (0 : Nat) > 0)]
      exact ⟨rfl, rfl⟩
    · simp only [handleModelFailure, getRateLimitBackoffMs]
      rw [if_pos hsc, if_neg (by omega : ¬ (0 : Nat) > 0)]
      exact ⟨rfl, rfl⟩

/-- C7 witness: a fresh worker state (streak 0) hit by a 429 with
`retry_after_ms = 8000` at `now = 100000`: the cooldown lands at
`100000 + max 8000 6000 = 108000`. -/
theorem c7_rate_limit_backoff_witness :
    (AdviceRunState.mk false false false 0 0 0 0 false).rateLimitStreak = 0
      ∧ (handleModelFailure 100000 (.modelErr (some 429) (some 8000))
          (AdviceRunState.mk false false false 0 0 0 0 false)).modelCooldownUntil
        = 108000 := by
  refine ⟨rfl, ?_⟩
  have h := (c7_rate_limit_backoff (AdviceRunState.mk false false false 0 0 0 0 false)
    100000 8000 (Or.inl rfl)).1
  rw [h]
  decide

theorem lookup_none_of_not_mem_keys {k : String} :
    ∀ {l : List (String × Nat)}, k ∉ l.map Prod.fst → l.lookup k = none
  | [], _ => rfl
  | (k', v') :: rest, h => by
    have hk : ¬ k = k' := fun he => h (by simp [he])
    have hbeq : (k == k') = false := beq_eq_false_iff_ne.mpr hk
    have hrest : k ∉ rest.map Prod.fst := fun hm => h (by simp [hm])
    simpa [List.lookup_cons, hbeq] using lookup_none_of_not_mem_keys hrest

theorem keys_of_filter_sub {l : List (String × Nat)} {p : String × Nat → Bool}
    {k : String} (h : k ∈ (l.filter p).map Prod.fst) : k ∈ l.map Prod.fst := by
  obtain ⟨e, he, rfl⟩ := List.mem_map.mp h
  exact List.mem_map.mpr ⟨e, (List.mem_filter.mp he).1, rfl⟩

theorem lookup_filter_of_keep {k : String} {r : Nat} {p : String × Nat → Bool} :
    ∀ {l : List (String × Nat)}, l.lookup k = some r → p (k, r) = true →
      (l.filter p).lookup k = some r
  | [], hl, _ => by simp at hl
  | (k', v') :: rest, hl, hp => by
    by_cases hk : k = k'
    · subst hk
      obtain rfl : v' = r := by simpa [List.lookup_cons] using hl
      rw [List.filter_cons, if_pos hp]
      simp [List.lookup_cons]
    · have hbeq : (k == k') = false := beq_eq_false_iff_ne.mpr hk
      have hl' : rest.lookup k = some r := by
        simpa [List.lookup_cons, hbeq] using hl
      rw [List.filter_cons]
      split
      · simpa [List.lookup_cons, hbeq] using lookup_filter_of_keep hl' hp
      · exact lookup_filter_of_keep hl' hp

theorem lookup_filter_of_nodup {k : String} {r : Nat} (p : String × Nat → Bool) :
    ∀ {l : List (String × Nat)}, (l.map Prod.fst).Nodup →
      l.lookup k = some r →
      (l.filter p).lookup k = if p (k, r) = true then some r else none
  | [], _, hl => by simp at hl
  | (k', v') :: rest, hnd, hl => by
    rw [List.map_cons, List.nodup_cons] at hnd
    by_cases hk : k = k'
    · subst hk
      obtain rfl : v' = r := by simpa [List.lookup_cons] using hl
      rw [List.filter_cons]
      split
      · rename_i hp
        simp [List.lookup_cons, hp]
      · exact lookup_none_of_not_mem_keys (fun hm => hnd.1 (keys_of_filter_sub hm))
    · have hbeq : (k == k') = false := beq_eq_false_iff_ne.mpr hk
      have hl' : rest.lookup k = some r := by
        simpa [List.lookup_cons, hbeq] using hl
      rw [List.filter_cons]
      split
      · simpa [List.lookup_cons, hbeq] using lookup_filter_of_nodup p hnd.2 hl'
      · exact lookup_filter_of_nodup p hnd.2 hl'

theorem lookup_none_filter {k : String} {p : String × Nat → Bool} :
    ∀ {l : List (String × Nat)}, l.lookup k = none →
      (l.filter p).lookup k = none
  | [], _ => rfl
  | (k', v') :: rest, hl => by
    by_cases hk : k = k'
    · subst hk
      simp [List.lookup_cons] at hl
    · have hbeq : (k == k') = false := beq_eq_false_iff_ne.mpr hk
      have hl' : rest.lookup k = none := by
        simpa [List.lookup_cons, hbeq] using hl
      rw [List.filter_cons]
      split
      · simpa [List.lookup_cons, hbeq] using lookup_none_filter hl'
      · exact lookup_none_filter hl'

theorem lookup_setEntry (k : String) (v : Nat) :
    ∀ l : List (String × Nat), (setEntry l k v).lookup k = some v
  | [] => by simp [setEntry, List.lookup_cons]
  | (k', v') :: rest => by
    rw [setEntry]
    split
    · simp [List.lookup_cons]
    · rename_i hk
      have hne : ¬ k = k' := fun he => hk he.symm
      have hbeq : (k == k') = false := beq_eq_false_iff_ne.mpr hne
      simpa [List.lookup_cons, hbeq] using lookup_setEntry k v rest

/-- C10: with an active cooldown (stored ready time strictly after `now`),
`takeCooldown` returns the positive ceiling of the remaining seconds and
leaves that key's stored ready time unchanged — denied attempts never extend
the cooldown; with no active cooldown it returns 0 and stores
`now + cooldownMs`.  The key-uniqueness hypothesis reflects the JS `Map`. -/
theorem c10_cooldown_frame (state0 : RateLimitState) (now : Nat) (key : String)
    (cooldownMs : Nat) (hnd : (state0.cooldowns.map Prod.fst).Nodup) :
    (∀ r, state0.cooldowns.lookup key = some r → now < r →
        (takeCooldown now key cooldownMs state0).1 = (r - now + 999) / 1000
          ∧ 0 < (takeCooldown now key cooldownMs state0).1
          ∧ (takeCooldown now key cooldownMs state0).2.cooldowns.lookup key
              = some r)
      ∧ (((state0.cooldowns.lookup key).getD 0 ≤ now) →
        (takeCooldown now key cooldownMs state0).1 = 0
          ∧ (takeCooldown now key cooldownMs state0).2.cooldowns.lookup key
              = some (now + cooldownMs)) := by
  have hprune : (pruneExpired now state0).cooldowns = state0.cooldowns
      ∨ (pruneExpired now state0).cooldowns
          = state0.cooldowns.filter (fun e => decide (now < e.2)) := by
    unfold pruneExpired
    split
    · exact Or.inl rfl
    · exact Or.inr rfl
  constructor
  · intro r hr hlt
    have hlook : (pruneExpired now state0).cooldowns.lookup key = some r := by
      rcases hprune with he | hf
      · rw [he]; exact hr
      · rw [hf]
        exact lookup_filter_of_keep hr (by simpa using hlt)
    have h1 : takeCooldown now key cooldownMs state0
        = ((r - now + 999) / 1000, pruneExpired now state0) := by
      simp only [takeCooldown, hlook, Option.getD_some, if_pos hlt]
    rw [h1]
    exact ⟨rfl, by omega, hlook⟩
  · intro hle
    have hlook2 : ((pruneExpired now state0).cooldowns.lookup key).getD 0 ≤ now := by
      rcases hprune with he | hf
      · rw [he]; exact hle
      · rw [hf]
        cases hsl : state0.cooldowns.lookup key with
        | none => rw [lookup_none_filter hsl]; simp
        | some r =>
          have hr : r ≤ now := by rw [hsl] at hle; simpa using hle
          rw [lookup_filter_of_nodup _ hnd hsl, if_neg (by simpa using hr)]
          simp
    have h2 : takeCooldown now key cooldownMs state0
        = (0, { pruneExpired now state0 with
            cooldowns := setEntry (pruneExpired now state0).cooldowns key
              (now + cooldownMs) }) := by
      simp only [takeCooldown]
      rw [if_neg (by omega :
        ¬ ((pruneExpired now state0).cooldowns.lookup key).getD 0 > now)]
    rw [h2]
    exact ⟨rfl, lookup_setEntry key (now + cooldownMs) _⟩

/-- C10 witness: one key on cooldown until 5000 ms queried at 1000 ms yields
4 s remaining and an unchanged entry; a fresh key consumes the slot. -/
theorem c10_cooldown_frame_witness :
    ((RateLimitState.mk [] [("case-slug", 5000)] 1000).cooldowns.map
        Prod.fst).Nodup
      ∧ (takeCooldown 1000 "case-slug" 30000
          (RateLimitState.mk [] [("case-slug", 5000)] 1000)).1 = 4
      ∧ (takeCooldown 1000 "case-slug" 30000
          (RateLimitState.mk [] [("case-slug", 5000)] 1000)).2.cooldowns.lookup
          "case-slug" = some 5000 := by
  have h := (c10_cooldown_frame (RateLimitState.mk [] [("case-slug", 5000)] 1000)
    1000 "case-slug" 30000 (by decide)).1 5000 (by decide) (by decide)
  exact ⟨by decide, h.1.trans (by decide), h.2.2⟩

theorem foldl_add_count (w : Int) (f : List String → Bool) :
    ∀ (bank : List (List String)) (acc : Int),
      bank.foldl (fun s pat => if f pat then s + w else s) acc
        = acc + w * ((bank.filter f).length : Int)
  | [], acc => by simp
  | p :: bs, acc => by
    rw [List.foldl_cons, List.filter_cons]
    by_cases hp : f p
    · rw [if_pos hp, if_pos hp, foldl_add_count w f bs (acc + w), List.length_cons]
      push_cast
      ring
    · rw [if_neg hp, if_neg hp, foldl_add_count w f bs acc]

theorem lastN_getRecentTranscript (transcript : List TranscriptChunk) :
    lastN 10 (getRecentTranscript transcript) = lastN 10 transcript := by
  unfold getRecentTranscript
  split
  · rfl
  · rename_i hlen
    unfold lastN
    rw [List.drop_drop, List.length_drop]
    congr 1
    omega

theorem getRecentTranscript_ne_nil {transcript : List TranscriptChunk}
    (hne : transcript ≠ []) : getRecentTranscript transcript ≠ [] := by
  unfold getRecentTranscript
  split
  · exact hne
  · rename_i hlen
    have hpos : 0 < (lastN 40 transcript).length := by
      unfold lastN
      rw [List.length_drop]
      omega
    exact List.ne_nil_of_length_pos hpos

/-- The concatenated lowercased text of the last ≤ 10 chunks (§4.4). -/
def combinedTextOf (transcript : List TranscriptChunk) : String :=
  joinWith " " ((lastN 10 transcript).map (fun e => strToLower e.text))

/-- Spec-side heuristic score (§4.4): `clamp(20 + 15·|HIGH hits| +
8·|MEDIUM hits|, 5, 95)`. -/
def heuristicScoreSpec (combined : String) : Int :=
  clampI
    (20 + 15 * ((HIGH_RISK_PATTERNS.filter (matchesPattern combined)).length : Int)
      + 8 * ((MEDIUM_RISK_PATTERNS.filter (matchesPattern combined)).length : Int))
    5 95

/-- Spec-side default confidences: 0.45 / 0.5 / 0.55 for low / medium / high. -/
def heuristicConfidenceFor : RiskLevel → ℚ
  | .low => mkRat 9 20
  | .medium => mkRat 1 2
  | .high => mkRat 11 20

/-- C6: on a non-empty transcript the heuristic advice score is
`clamp(20 + 15·|HIGH hits| + 8·|MEDIUM hits|, 5, 95)` over the concatenated
lowercased text of the last ≤ 10 chunks, the level is derived by the §3
cutoffs, and the confidence is 0.45 / 0.5 / 0.55 for low / medium / high. -/
theorem c6_heuristic_scorer (now : Nat) (transcript : List TranscriptChunk)
    (previousAdvice : Option CoachingAdvice) (hne : transcript ≠ []) :
    (generateHeuristicAdvice now transcript previousAdvice).riskScore
        = heuristicScoreSpec (combinedTextOf transcript)
      ∧ (generateHeuristicAdvice now transcript previousAdvice).riskLevel
        = getRiskLevel (heuristicScoreSpec (combinedTextOf transcript))
      ∧ (generateHeuristicAdvice now transcript previousAdvice).confidence
        = heuristicConfidenceFor
            (getRiskLevel (heuristicScoreSpec (combinedTextOf transcript))) := by
  have hadv : generateHeuristicAdvice now transcript previousAdvice
      = buildHeuristicAdvice now (getRecentTranscript transcript) previousAdvice := by
    rw [generateHeuristicAdvice]
    simp only [if_neg (getRecentTranscript_ne_nil hne)]
  have hcomb : joinWith " "
      ((lastN 10 (getRecentTranscript transcript)).map (fun e => strToLower e.text))
      = combinedTextOf transcript := by
    rw [combinedTextOf, lastN_getRecentTranscript]
  rw [hadv, buildHeuristicAdvice]
  simp only [hcomb, foldl_add_count]
  have hspec : clampI
      (20 + 15 * ((HIGH_RISK_PATTERNS.filter
          (matchesPattern (combinedTextOf transcript))).length : Int)
        + 8 * ((MEDIUM_RISK_PATTERNS.filter
          (matchesPattern (combinedTextOf transcript))).length : Int))
      5 95 = heuristicScoreSpec (combinedTextOf transcript) := rfl
  rw [hspec]
  rcases hgr : getRiskLevel (heuristicScoreSpec (combinedTextOf transcript))
    with _ | _ | _ <;> simp [hgr, heuristicConfidenceFor]

/-- C6 witness: one chunk matching the `gift card` and `act now` HIGH
patterns scores 20 + 15 + 15 = 50, a `medium` with confidence 0.5. -/
theorem c6_heuristic_scorer_witness :
    ([TranscriptChunk.mk "1" .caller "we need a gift card, act now" 0]
        : List TranscriptChunk) ≠ []
      ∧ (generateHeuristicAdvice 7
          [TranscriptChunk.mk "1" .caller "we need a gift card, act now" 0]
          none).riskScore
        = heuristicScoreSpec (combinedTextOf
            [TranscriptChunk.mk "1" .caller "we need a gift card, act now" 0])
      ∧ heuristicScoreSpec (combinedTextOf
          [TranscriptChunk.mk "1" .caller "we need a gift card, act now" 0]) = 50 :=
  ⟨by decide,
    (c6_heuristic_scorer 7
      [TranscriptChunk.mk "1" .caller "we need a gift card, act now" 0]
      none (by decide)).1,
    by decide⟩

theorem wordsAux_good : ∀ (cs cur : List Char),
    (∀ c ∈ cur, isWsChar c = false) →
    ∀ w ∈ wordsAux cur cs, w ≠ [] ∧ ∀ c ∈ w, isWsChar c = false
  | [], cur, h => by
    intro w hw
    rw [wordsAux] at hw
    split at hw
    · simp at hw
    · rename_i hcur
      simp only [List.mem_singleton] at hw
      subst hw
      exact ⟨by simpa using hcur, fun c hc => h c (List.mem_reverse.mp hc)⟩
  | c :: rest, cur, h => by
    intro w hw
    rw [wordsAux] at hw
    by_cases hws : isWsChar c = true
    · rw [if_pos hws] at hw
      split at hw
      · exact wordsAux_good rest [] (by simp) w hw
      · rename_i hcur
        rcases List.mem_cons.mp hw with rfl | hw'
        · exact ⟨by simpa using hcur, fun d hd => h d (List.mem_reverse.mp hd)⟩
        · exact wordsAux_good rest [] (by simp) w hw'
    · rw [if_neg hws] at hw
      refine wordsAux_good rest (c :: cur) ?_ w hw
      intro d hd
      rcases List.mem_cons.mp hd with rfl | hd'
      · simpa using hws
      · exact h d hd'

theorem wordsAux_append_word : ∀ (w cur cs : List Char),
    (∀ c ∈ w, isWsChar c = false) →
    wordsAux cur (w ++ cs) = wordsAux (w.reverse ++ cur) cs
  | [], cur, cs, _ => by simp
  | c :: w', cur, cs, h => by
    have hc : isWsChar c = false := h c (by simp)
    rw [List.cons_append, wordsAux, if_neg (by simp [hc])]
    rw [wordsAux_append_word w' (c :: cur) cs (fun d hd => h d (by simp [hd]))]
    simp

theorem wordsOf_joinSpace : ∀ ws : List (List Char),
    (∀ w ∈ ws, w ≠ [] ∧ ∀ c ∈ w, isWsChar c = false) →
    wordsOf (joinSpace ws) = ws
  | [], _ => rfl
  | [w], h => by
    obtain ⟨hne, hgood⟩ := h w (by simp)
    rw [joinSpace]
    unfold wordsOf
    rw [show w = w ++ ([] : List Char) by simp, wordsAux_append_word w [] [] hgood]
    rw [wordsAux, if_neg (by simpa using hne)]
    simp
  | w :: w' :: ws', h => by
    obtain ⟨hne, hgood⟩ := h w (by simp)
    rw [joinSpace]
    unfold wordsOf
    rw [wordsAux_append_word w [] _ hgood]
    rw [wordsAux, if_pos (by decide : isWsChar ' ' = true),
      if_neg (by simpa using hne)]
    have hrest := wordsOf_joinSpace (w' :: ws') (fun u hu => h u (by simp [hu]))
    unfold wordsOf at hrest
    rw [hrest]
    simp

theorem normalizeActionText_idem (s : String) :
    normalizeActionText (normalizeActionText s) = normalizeActionText s := by
  unfold normalizeActionText
  congr 1
  show joinSpace (wordsOf (joinSpace (wordsOf s.data))) = joinSpace (wordsOf s.data)
  rw [wordsOf_joinSpace (wordsOf s.data)
    (fun w hw => wordsAux_good s.data [] (by simp) w hw)]

theorem mem_of_mem_dedupBy (k : String → String) :
    ∀ (n : Nat) (l : List String), l.length ≤ n → ∀ x ∈ dedupBy k l, x ∈ l
  | _, [], _, x, hx => by simp [dedupBy] at hx
  | 0, y :: ys, h, x, hx => by simp at h
  | n + 1, y :: ys, h, x, hx => by
    rw [dedupBy] at hx
    rcases List.mem_cons.mp hx with rfl | hx'
    · exact List.mem_cons_self x ys
    · have hlen : (ys.filter (fun z => !(k z = k y))).length ≤ n := by
        have hf := List.length_filter_le (fun z => !(k z = k y)) ys
        simp only [List.length_cons] at h
        omega
      exact List.mem_cons_of_mem y
        (List.mem_filter.mp (mem_of_mem_dedupBy k n _ hlen x hx')).1

theorem mem_dedupBy_sub {k : String → String} {l : List String} {x : String}
    (h : x ∈ dedupBy k l) : x ∈ l :=
  mem_of_mem_dedupBy k l.length l le_rfl x h

theorem pairwise_dedupBy (k : String → String) :
    ∀ (n : Nat) (l : List String), l.length ≤ n →
      (dedupBy k l).Pairwise (fun a b => k a ≠ k b)
  | _, [], _ => by simp [dedupBy]
  | 0, y :: ys, h => by simp at h
  | n + 1, y :: ys, h => by
    rw [dedupBy]
    refine List.pairwise_cons.mpr ⟨?_, ?_⟩
    · intro b hb
      have hbf := mem_dedupBy_sub hb
      have hne := (List.mem_filter.mp hbf).2
      simp only [Bool.not_eq_true', decide_eq_false_iff_not] at hne
      exact fun he => hne he.symm
    · refine pairwise_dedupBy k n _ ?_
      have hf := List.length_filter_le (fun z => !(k z = k y)) ys
      simp only [List.length_cons] at h
      omega

theorem foldl_addAction_eq :
    ∀ (cands seen queue : List String),
      (cands.foldl addAction (seen, queue)).2
        = queue ++ dedupBy strToLower
            ((((cands.map normalizeActionText).filter (fun t => !(t = ""))).filter
              (fun t => !(seen.contains (strToLower t)))))
  | [], seen, queue => by simp [dedupBy]
  | v :: rest, seen, queue => by
    rw [List.foldl_cons, List.map_cons]
    by_cases hv : v = ""
    · subst hv
      rw [show addAction (seen, queue) "" = (seen, queue) from rfl]
      rw [show normalizeActionText "" = "" from rfl,
        List.filter_cons_of_neg (by simp)]
      exact foldl_addAction_eq rest seen queue
    · by_cases hn : normalizeActionText v = ""
      · have ha : addAction (seen, queue) v = (seen, queue) := by
          simp only [addAction]
          rw [if_neg hv, if_pos hn]
        rw [ha, List.filter_cons_of_neg (by simp [hn])]
        exact foldl_addAction_eq rest seen queue
      · rw [List.filter_cons_of_pos (by simp [hn])]
        by_cases hseen : seen.contains (strToLower (normalizeActionText v)) = true
        · have ha : addAction (seen, queue) v = (seen, queue) := by
            simp only [addAction]
            rw [if_neg hv, if_neg hn, if_pos hseen]
          rw [ha, List.filter_cons_of_neg (by rw [hseen]; simp)]
          exact foldl_addAction_eq rest seen queue
        · have hseen' : seen.contains (strToLower (normalizeActionText v)) = false := by
            revert hseen
            cases seen.contains (strToLower (normalizeActionText v)) <;> simp
          have ha : addAction (seen, queue) v
              = (strToLower (normalizeActionText v) :: seen,
                queue ++ [normalizeActionText v]) := by
            simp only [addAction]
            rw [if_neg hv, if_neg hn, if_neg hseen]
          have hF : (((rest.map normalizeActionText).filter
                (fun t => !(t = ""))).filter
                (fun t => !((strToLower (normalizeActionText v) :: seen).contains
                  (strToLower t))))
              = ((((rest.map normalizeActionText).filter
                  (fun t => !(t = ""))).filter
                  (fun t => !(seen.contains (strToLower t)))).filter
                  (fun y => !(strToLower y = strToLower (normalizeActionText v)))) := by
            simp only [List.filter_filter]
            apply List.filter_congr
            intro t ht
            by_cases hk : strToLower t = strToLower (normalizeActionText v)
            · have hbeq : (strToLower t == strToLower (normalizeActionText v)) = true := by
                simp [hk]
              simp [List.contains_cons, hbeq, hk]
            · have hbeq : (strToLower t == strToLower (normalizeActionText v)) = false :=
                beq_eq_false_iff_ne.mpr hk
              simp [List.contains_cons, hbeq, hk]
          rw [ha, List.filter_cons_of_pos (by rw [hseen']; rfl),
            foldl_addAction_eq rest _ _, hF, dedupBy]
          simp [List.append_assoc]

theorem buildActionQueue_eq_spec (next : CoachingAdvice)
    (prev : Option CoachingAdvice) :
    buildActionQueue next prev = specActionQueue next prev := by
  simp only [buildActionQueue, specActionQueue]
  rw [foldl_addAction_eq (actionCandidates next prev) [] []]
  simp

theorem specActionQueue_ne_nil (next : CoachingAdvice)
    (prev : Option CoachingAdvice) : specActionQueue next prev ≠ [] := by
  simp only [specActionQueue]
  split_ifs with hu
  · simp
  · simp [List.take_eq_nil_iff, hu]

theorem specActionQueue_len_le (next : CoachingAdvice)
    (prev : Option CoachingAdvice) : (specActionQueue next prev).length ≤ 3 := by
  simp only [specActionQueue]
  split_ifs with hu <;> simp [List.length_take]

theorem specActionQueue_pairwise (next : CoachingAdvice)
    (prev : Option CoachingAdvice) :
    (specActionQueue next prev).Pairwise
      (fun a b => strToLower (normalizeActionText a)
        ≠ strToLower (normalizeActionText b)) := by
  have hcanon : ∀ x ∈ dedupBy strToLower
      (((actionCandidates next prev).map normalizeActionText).filter
        (fun t => !(t = ""))), normalizeActionText x = x := by
    intro x hx
    have hmem := (List.mem_filter.mp (mem_dedupBy_sub hx)).1
    obtain ⟨v, _, rfl⟩ := List.mem_map.mp hmem
    exact normalizeActionText_idem v
  have hpw2 : (dedupBy strToLower
      (((actionCandidates next prev).map normalizeActionText).filter
        (fun t => !(t = "")))).Pairwise
      (fun a b => strToLower (normalizeActionText a)
        ≠ strToLower (normalizeActionText b)) := by
    refine List.Pairwise.imp_of_mem ?_ (pairwise_dedupBy strToLower _ _ le_rfl)
    intro a b ha hb hne
    rw [hcanon a ha, hcanon b hb]
    exact hne
  simp only [specActionQueue]
  split_ifs with hu
  · simp
  · exact List.Pairwise.sublist (List.take_sublist 3 _) hpw2

/-- C9: the persisted action list `[whatToDo] ++ nextSteps` of a stabilized
advice equals the spec-side in-order union (canonicalize by whitespace
collapse, drop empties, remove case-insensitive duplicates, fall back when
empty, truncate to 3), and consequently no two of its entries are equal
after whitespace-collapse plus case-insensitive normalization. -/
theorem c9_action_queue (now : Nat) (next : CoachingAdvice)
    (prev : Option CoachingAdvice) :
    ((stabilizeAdvice now next prev).whatToDo
        :: (stabilizeAdvice now next prev).nextSteps
      = specActionQueue next prev)
    ∧ ((stabilizeAdvice now next prev).whatToDo
        :: (stabilizeAdvice now next prev).nextSteps).Pairwise
        (fun a b => strToLower (normalizeActionText a)
          ≠ strToLower (normalizeActionText b)) := by
  have h1 : (stabilizeAdvice now next prev).whatToDo
      = (buildActionQueue next prev).getD 0 "" := rfl
  have h2 : (stabilizeAdvice now next prev).nextSteps
      = ((buildActionQueue next prev).drop 1).take 2 := rfl
  have hlist : (stabilizeAdvice now next prev).whatToDo
      :: (stabilizeAdvice now next prev).nextSteps = specActionQueue next prev := by
    rw [h1, h2, buildActionQueue_eq_spec]
    rcases hb : specActionQueue next prev with _ | ⟨x, rest⟩
    · exact absurd hb (specActionQueue_ne_nil next prev)
    · have hlen := specActionQueue_len_le next prev
      rw [hb] at hlen
      simp only [List.length_cons] at hlen
      simp only [List.getD_cons_zero, List.drop_succ_cons, List.drop_zero]
      rw [List.take_of_length_le (by omega)]
  exact ⟨hlist, hlist ▸ specActionQueue_pairwise next prev⟩

end ScamHotline
